import Mathlib

/-!
Verification of the DDP compiler / runtime against its specification.

Each section shallowly embeds one part of the implementation:

* `DDP.Refc`    — the refcount pool allocator
  (lib/runtime/source/DDP/ddprefcount.c)
* `DDP.IRIndex` — the IR lowering of list indexing
  (compiler, `getElementPointer` / `VisitBinaryExpr` STELLE case)
* `DDP.Bytes`   — `ByteSammlung_Verkettet` (lib/stdlib/source/DDP/bytes.c)
* `DDP.Str`     — the runtime string operators (lib/runtime/source/operators.c)
* `DDP.Tyck`    — the type checker's division rule (pkg/ast/typechecker)
* `DDP.SC`      — the short-circuit lowering of `und` / `oder`
* `DDP.Scan`    — the scanner's include mechanism (pkg/scanner/scanner.go)

Machine integers are modelled as `Nat` / `Int` with explicit bounds or
`% 2 ^ 64` where overflow matters.
-/

namespace DDP.Refc

/-- A refcount block (C struct `RefcBlock`).  The C block is identified by its
address; in the model each block carries a unique `id` standing for that
address.  `used` is the 64-bit occupancy bitmap (`uint64_t used`), kept as a
`Nat` `< 2 ^ 64`.  The 64 `refcounts` slots themselves hold no data relevant
to the claims, so only the bitmap is modelled. -/
structure Block where
  id : Nat
  used : Nat
  deriving DecidableEq, Repr

/-- The allocator's global state: the doubly linked block list from
`refc_root` to `refc_end`, in root-to-end order, plus a counter supplying
fresh block ids (fresh addresses).  The `block_cache` only recycles memory
and never holds live blocks, so it does not appear at this level. -/
structure PoolState where
  blocks : List Block
  nextId : Nat
  deriving DecidableEq, Repr

/-- Constant `ALL_USED` = `~0ULL`, i.e. all 64 bits set. -/
def ALL_USED : Nat := 2 ^ 64 - 1

/-- A pointer into a block's `refcounts` array: the block's address (id) and
the slot index `(ptr - &block.refcounts[0]) / 8`. -/
abbrev RefcPtr := Nat × Nat

/-- Scan of a 64-bit word for its lowest zero bit, examining one bit per
step (the recursion is bounded by the word width). -/
def ffsllAux : Nat → Nat → Nat
  | 0, _ => 0
  | width + 1, u => if u % 2 = 0 then 0 else ffsllAux width (u / 2) + 1

/-- Computation `ffsll(~used) - 1` of `allocate_refc`: the index of the
lowest zero bit of the 64-bit word `used`. -/
def lowestZeroBit (u : Nat) : Nat := ffsllAux 64 u

/-- Function `new_refc_block`: a block appended to the list (`refc_end->next = block`), with a
fresh id and an all-free bitmap. -/
def newRefcBlock (st : PoolState) : Block × PoolState :=
  let b : Block := ⟨st.nextId, 0⟩
  (b, ⟨st.blocks ++ [b], st.nextId + 1⟩)

/-- Function `next_block_with_capa`: scan from `refc_end` backwards for the first
block whose bitmap is not all-ones; if none exists (or the list is empty)
append a new block. -/
def next_block_with_capa (st : PoolState) : Block × PoolState :=
  match st.blocks.reverse.find? (fun b => b.used ≠ ALL_USED) with
  | some b => (b, st)
  | none => newRefcBlock st

/-- Replace the bitmap of the block at address `bid` (C code mutates the
block through its pointer). -/
def setUsed (blocks : List Block) (bid newUsed : Nat) : List Block :=
  blocks.map fun b => if b.id = bid then ⟨b.id, newUsed⟩ else b

/-- Function `allocate_refc`: take the first zero bit of `used`, set it
(`used |= 1ULL << first_zero`), and return `&block.refcounts[first_zero]`.
May only be called on a block with free space. -/
def allocate_refc (st : PoolState) (b : Block) : RefcPtr × PoolState :=
  let first_zero := lowestZeroBit b.used
  ((b.id, first_zero), ⟨setUsed st.blocks b.id (b.used ||| 2 ^ first_zero), st.nextId⟩)

/-- Function `ddp_allocate_refcount` with the pool enabled. -/
def ddp_allocate_refcount (st : PoolState) : RefcPtr × PoolState :=
  let (block, st') := next_block_with_capa st
  allocate_refc st' block

/-- Predicate `refc_in_block`: the pointer lies within
`[&block.refcounts[0], &block.refcounts[63]]`, i.e. it is a slot of this
block with index at most 63. -/
def refc_in_block (p : RefcPtr) (b : Block) : Bool :=
  p.1 = b.id && p.2 ≤ 63

/-- Function `get_block_of_refc`: linear scan from `refc_end` backwards. -/
def get_block_of_refc (st : PoolState) (p : RefcPtr) : Option Block :=
  st.blocks.reverse.find? (refc_in_block p)

/-- Function `free_refc`: clear the slot's bit (`used &= ~(1ULL << index)`, the
complement taken in 64 bits) and, if the block becomes all-free, unlink it
(`free_refc_block`). -/
def free_refc (st : PoolState) (b : Block) (p : RefcPtr) : PoolState :=
  let newUsed := b.used &&& (ALL_USED ^^^ (1 <<< p.2))
  if newUsed = 0 then
    ⟨st.blocks.filter (fun b' => b'.id ≠ b.id), st.nextId⟩
  else
    ⟨setUsed st.blocks b.id newUsed, st.nextId⟩

/-- Function `ddp_free_refcount` with the pool enabled: locate the block containing
the pointer; if there is none, `ddp_runtime_error` fires (modelled as
`none`), otherwise the slot is freed. -/
def ddp_free_refcount (st : PoolState) (p : RefcPtr) : Option PoolState :=
  match get_block_of_refc st p with
  | none => none
  | some block => some (free_refc st block p)

/-- Ambient invariant: every bitmap fits in 64 bits. -/
def UsedBounded (st : PoolState) : Prop :=
  ∀ b ∈ st.blocks, b.used < 2 ^ 64

/-- The pointer `p` is an allocated slot of some live block. -/
def slotAllocated (st : PoolState) (p : RefcPtr) : Prop :=
  ∃ b ∈ st.blocks, b.id = p.1 ∧ p.2 < 64 ∧ b.used.testBit p.2

instance (st : PoolState) : Decidable (UsedBounded st) := by
  unfold UsedBounded; infer_instance

instance (st : PoolState) (p : RefcPtr) : Decidable (slotAllocated st p) := by
  unfold slotAllocated; infer_instance

end DDP.Refc

namespace DDP

/-- View of `memcpy(dst, buf + off, n)` functionally: the `n` bytes of `buf`
starting at `off`.  Reads past the end of the modelled buffer return the
junk value `0` (the C code would read whatever is in memory there; the
theorems below only apply it within bounds). -/
def readBytes (buf : List Nat) (off n : Nat) : List Nat :=
  (List.range n).map fun k => buf.getD (off + k) 0

end DDP

namespace DDP.IRIndex

/-- 64-bit two's-complement wraparound of the mathematical integer `x`,
interpreted as a signed value in `[-2^63, 2^63)`. -/
def wrap64 (x : Int) : Int := (x + 2 ^ 63) % 2 ^ 64 - 2 ^ 63

/-- The IR emitted by `getElementPointer` plus the element load
(`VisitIndexing` / the `token.STELLE` case of `VisitBinaryExpr`), run on a
list with contents `arr` and 1-based index `i`:

* `len`   — `NewLoad` of the list's `len` field,
* `index` — `NewSub(rhs, newInt(1))`, an `i64` subtraction,
* `cond`  — `NewAnd(NewICmp SLT index len, NewICmp SGE index 0)`,
* `NewCondBr cond thenBlock errorBlock`; `errorBlock` calls
  `out_of_bounds(rhs, len)` with the original index and ends in
  `NewUnreachable` (modelled as `Except.error (i, len)`); `thenBlock`
  loads element `index` of the backing array. -/
def lowerListIndexLoad (arr : List Int) (i : Int) : Except (Int × Int) Int :=
  let len : Int := arr.length
  let index := wrap64 (i - 1)
  if index < len ∧ index ≥ 0 then .ok (arr.getD index.toNat 0)
  else .error (i, len)

end DDP.IRIndex

namespace DDP.Bytes

/-- Macro `UP_8(n) = ((n) + 7) & ~7`: round up to the next multiple of 8 (for
non-negative sizes this equals `(n + 7) / 8 * 8`). -/
def UP_8 (n : Nat) : Nat := (n + 7) / 8 * 8

/-- A `ByteSammlung`: `bytes` is the byte view `(uint8_t *)bytes.arr` of the
backing `ddpintlist` (its length is the allocated byte count), `len` the
logical length in bytes. -/
structure ByteSammlung where
  bytes : List Nat
  len : Nat
  deriving DecidableEq, Repr

/-- Function `ByteSammlung_Verkettet(ret, a, b)`, transliterated from
lib/stdlib/source/DDP/bytes.c lines 62–72: `allocate_bytes` sizes `ret` for
`a->len + b->len` bytes, then the two `memcpy`s run — with **both** source
pointers taken from `a` (`aBytes` and `bBytes` are both
`(uint8_t *)a->bytes.arr` in the source) — and the padding up to the
allocated capacity is zeroed. -/
def ByteSammlung_Verkettet (a b : ByteSammlung) : ByteSammlung :=
  let len := a.len + b.len
  let needed_bytes := UP_8 len
  let aBytes := a.bytes
  let bBytes := a.bytes
  { bytes := readBytes aBytes 0 a.len ++ readBytes bBytes 0 b.len ++
      List.replicate (needed_bytes - len) 0,
    len := len }

/-- What concatenation should produce (the spec's words): the bytes of `a`
followed by the bytes of `b`, zero-padded to the allocated capacity. -/
def ByteSammlung_Verkettet_spec (a b : ByteSammlung) : ByteSammlung :=
  let len := a.len + b.len
  { bytes := readBytes a.bytes 0 a.len ++ readBytes b.bytes 0 b.len ++
      List.replicate (UP_8 len - len) 0,
    len := len }

end DDP.Bytes

namespace DDP.Str

/-- A `ddpstring`: `bytes` models the allocated `char*` buffer contents,
`cap` the struct's `cap` field.  In every well-formed string
`bytes.length = cap` and the buffer ends in a null byte. -/
structure DDPString where
  bytes : List Nat
  cap : Nat
  deriving DecidableEq, Repr

/-- Modelled from the spec: texts are UTF-8 encoded.  The utf8 helper
library (`utf8_num_bytes` etc.) is not under src/; this is the standard
byte count indicated by a UTF-8 leading byte. -/
def utf8_indicated_num_bytes (b : Nat) : Nat :=
  if b < 0xC0 then 1 else if b < 0xE0 then 2 else if b < 0xF0 then 3 else 4

/-- Modelled from the spec: texts are UTF-8 encoded.  `utf8_strlen` counts
the characters of a null-terminated buffer, stepping by the byte count
indicated by each leading byte. -/
def utf8_strlenAux : Nat → List Nat → Nat
  | 0, _ => 0
  | _, [] => 0
  | fuel + 1, b :: rest =>
    if b = 0 then 0
    else utf8_strlenAux fuel ((b :: rest).drop (utf8_indicated_num_bytes b)) + 1

/-- The entry point counts at most one character per byte of the buffer, so
the buffer length bounds the loop. -/
def utf8_strlen (bs : List Nat) : Nat := utf8_strlenAux bs.length bs

/-- Modelled from the spec: texts are UTF-8 encoded.  `utf8_char_to_string`
encodes one Unicode scalar value; an unencodable value yields `[]` (the C
function returns `-1` and every caller in operators.c then uses `0`
bytes). -/
def utf8_char_to_string (c : Int) : List Nat :=
  if c < 0 then []
  else
    let n := c.toNat
    if n < 0x80 then [n]
    else if n < 0x800 then [0xC0 + n / 64, 0x80 + n % 64]
    else if n < 0x10000 then [0xE0 + n / 4096, 0x80 + n / 64 % 64, 0x80 + n % 64]
    else if n < 0x110000 then
      [0xF0 + n / 262144, 0x80 + n / 4096 % 64, 0x80 + n / 64 % 64, 0x80 + n % 64]
    else []

/-- Function `clamp` from operators.c lines 71–74. -/
def clamp (i min max : Int) : Int :=
  let t := if i < min then min else i
  if t > max then max else t

/-- One of the two scan loops of `inbuilt_string_slice`:
`while (str->str[i] != 0 && len != target) { ++len; i += utf8_indicated_num_bytes(str->str[i]); }`,
returning the final `(i, len)`.  Out-of-buffer reads see `0`. -/
def sliceAdvanceAux (bs : List Nat) (target : Nat) : Nat → Nat → Nat → Nat × Nat
  | 0, i, len => (i, len)
  | fuel + 1, i, len =>
    if bs.getD i 0 ≠ 0 ∧ len ≠ target then
      sliceAdvanceAux bs target fuel (i + utf8_indicated_num_bytes (bs.getD i 0)) (len + 1)
    else (i, len)

/-- Each loop step requires a non-null byte at offset `i` (so `i` is inside
the buffer) and advances `i` by at least one, so the buffer length bounds
the iteration count; exhausted fuel and a failed guard exit identically. -/
def sliceAdvance (bs : List Nat) (target i len : Nat) : Nat × Nat :=
  sliceAdvanceAux bs target bs.length i len

/-- Function `inbuilt_string_slice` from operators.c lines 76–114.  A runtime error
(`runtime_error(1, "Invalide Indexe …")`) is modelled as `Except.error`
carrying the two (already clamped) indices.  The decremented indices are
compared against the `size_t` loop counter, so they are converted to
unsigned 64-bit values as in C. -/
def inbuilt_string_slice (s : DDPString) (index1 index2 : Int) :
    Except (Int × Int) DDPString :=
  if s.cap ≤ 1 then .ok s
  else
    let start_length : Int := utf8_strlen s.bytes
    let i1c := clamp index1 1 start_length
    let i2c := clamp index2 1 start_length
    if i2c < i1c then .error (i1c, i2c)
    else
      let t1 : Nat := ((i1c - 1) % (2 ^ 64)).toNat
      let t2 : Nat := ((i2c - 1) % (2 ^ 64)).toNat
      let r1 := sliceAdvance s.bytes t1 0 0
      let r2 := sliceAdvance s.bytes t2 r1.1 r1.2
      let new_str_cap := (r2.1 - r1.1) + 2
      .ok { bytes := readBytes s.bytes r1.1 (new_str_cap - 1) ++ [0],
            cap := new_str_cap }

/-- Function `inbuilt_string_string_verkettet` (operators.c 116–125): reallocate
`str1` to `cap1 - 1 + cap2` bytes and append `str2`'s `cap2` buffer bytes at
offset `cap1 - 1`, overwriting `str1`'s terminator; `cap` is updated. -/
def inbuilt_string_string_verkettet (str1 str2 : DDPString) : DDPString :=
  let new_cap := str1.cap - 1 + str2.cap
  { bytes := readBytes str1.bytes 0 (str1.cap - 1) ++ readBytes str2.bytes 0 str2.cap,
    cap := new_cap }

/-- Function `inbuilt_char_string_verkettet` (operators.c 127–143): encode `c`
(invalid scalars contribute `0` bytes), shift the whole buffer up by
`num_bytes` with `memmove`, write the encoding at the front; `cap` is
updated to `cap + num_bytes`. -/
def inbuilt_char_string_verkettet (c : Int) (str : DDPString) : DDPString :=
  let temp := utf8_char_to_string c
  let num_bytes := temp.length
  let new_cap := str.cap + num_bytes
  { bytes := temp ++ readBytes str.bytes 0 str.cap,
    cap := new_cap }

/-- Function `inbuilt_string_char_verkettet` (operators.c 145–160): encode `c`,
write the encoding over the terminator at offset `cap - 1` and place a new
terminator at `new_cap - 1`.  The C function computes
`new_cap = str->cap + num_bytes` but **never assigns it to `str->cap`**, so
the returned struct still carries the old `cap`. -/
def inbuilt_string_char_verkettet (str : DDPString) (c : Int) : DDPString :=
  let temp := utf8_char_to_string c
  { bytes := readBytes str.bytes 0 (str.cap - 1) ++ temp ++ [0],
    cap := str.cap }

/-- Modelled from the spec: `sprintf(buffer, "%lld", i)` — the decimal
digits of `i`, with a leading `'-'` for negative values. -/
def natDecimalDigitsAux : Nat → Nat → List Nat
  | 0, n => [48 + n % 10]
  | fuel + 1, n =>
    if n < 10 then [48 + n] else natDecimalDigitsAux fuel (n / 10) ++ [48 + n % 10]

/-- Decimal digit string of a natural number (one recursion step per
digit, so `n` itself amply bounds the recursion). -/
def natDecimalDigits (n : Nat) : List Nat := natDecimalDigitsAux n n

/-- Modelled from the spec: the `%lld` rendering of an integer. -/
def sprintf_lld (i : Int) : List Nat :=
  if i < 0 then 45 :: natDecimalDigits (-i).toNat else natDecimalDigits i.toNat

/-- Function `inbuilt_int_to_string` (operators.c 174–189). -/
def inbuilt_int_to_string (i : Int) : DDPString :=
  let buffer := sprintf_lld i
  { bytes := buffer ++ [0], cap := buffer.length + 1 }

/-- Function `inbuilt_bool_to_string` (operators.c 208–225): `"wahr"` with cap 5 or
`"falsch"` with cap 7, written as byte values. -/
def inbuilt_bool_to_string (b : Bool) : DDPString :=
  if b then { bytes := [119, 97, 104, 114, 0], cap := 5 }
  else { bytes := [102, 97, 108, 115, 99, 104, 0], cap := 7 }

/-- Function `inbuilt_char_to_string` (operators.c 227–244). -/
def inbuilt_char_to_string (c : Int) : DDPString :=
  let temp := utf8_char_to_string c
  { bytes := temp ++ [0], cap := temp.length + 1 }

/-- The null-terminator invariant: the buffer is exactly `cap` bytes and
the byte at offset `cap − 1` is `0x00`. -/
def nullTerminated (s : DDPString) : Prop :=
  1 ≤ s.cap ∧ s.bytes.length = s.cap ∧ s.bytes.getD (s.cap - 1) 1 = 0

instance (s : DDPString) : Decidable (nullTerminated s) := by
  unfold nullTerminated; infer_instance

end DDP.Str

namespace DDP.Tyck

/-- The primitive kinds of `token.DDPType` (reconstructed from its uses in
the type checker and §3 of the spec; the `token` package file defining it
is not under src/). -/
inductive Primitive where
  | NICHTS | ZAHL | KOMMAZAHL | BOOLEAN | BUCHSTABE | TEXT
  deriving DecidableEq, Repr

/-- Struct `token.DDPType`: a primitive kind plus a list flag; compared
structurally. -/
structure DDPType where
  IsList : Bool
  PrimitiveType : Primitive
  deriving DecidableEq, Repr

def DDPIntType : DDPType := ⟨false, .ZAHL⟩

def DDPFloatType : DDPType := ⟨false, .KOMMAZAHL⟩

def DDPBoolType : DDPType := ⟨false, .BOOLEAN⟩

def DDPCharType : DDPType := ⟨false, .BUCHSTABE⟩

def DDPStringType : DDPType := ⟨false, .TEXT⟩

/-- Function `isOfType` from the type checker: membership of `t` in the valid
list. -/
def isOfType (t : DDPType) (types : List DDPType) : Bool :=
  types.any fun v => t = v

/-- Function `isOfTypeBin`: both operands must be of a valid type. -/
def isOfTypeBin (t1 t2 : DDPType) (types : List DDPType) : Bool :=
  isOfType t1 types && isOfType t2 types

/-- The `token.DURCH, token.DIVIDIERE, token.TEILE` case of the type
checker's `VisitBinaryExpr` (typechecker.go 261–263):
`validate(op, DDPIntType, DDPFloatType)` fires a diagnostic (first
component) when an operand is not numeric, and `latestReturnedType` is set
to `DDPFloatType` unconditionally (second component). -/
def checkDURCH (lhs rhs : DDPType) : Bool × DDPType :=
  (!isOfTypeBin lhs rhs [DDPIntType, DDPFloatType], DDPFloatType)

/-- An IR value as produced by the emitter for a numeric expression.
Float values are carried as rationals: `NewFDiv` below is IEEE double
division, which agrees with exact rational division whenever the exact
quotient is representable (as for `3 / 2 = 1.5`). -/
inductive IRValue where
  | VInt (n : Int)
  | VFloat (q : ℚ)
  | VBool (b : Bool)
  deriving DecidableEq, Repr

/-- Instruction `NewSIToFP`: signed-integer-to-double conversion (exact for `i64`
values of magnitude below `2^53`; modelled as the canonical coercion). -/
def NewSIToFP (n : Int) : ℚ := (n : ℚ)

/-- Instruction `NewFDiv`: double division, modelled exactly. -/
def NewFDiv (a b : ℚ) : ℚ := a / b

/-- The `token.DURCH, token.DIVIDIERE, token.TEILE` case of the compiler's
`VisitBinaryExpr`: integer operands are converted with `NewSIToFP` before a
single `NewFDiv`; any non-numeric operand hits `err(...)` (modelled as
`none`). -/
def compileDURCH : IRValue → IRValue → Option IRValue
  | .VInt a, .VInt b => some (.VFloat (NewFDiv (NewSIToFP a) (NewSIToFP b)))
  | .VInt a, .VFloat q => some (.VFloat (NewFDiv (NewSIToFP a) q))
  | .VFloat q, .VInt b => some (.VFloat (NewFDiv q (NewSIToFP b)))
  | .VFloat p, .VFloat q => some (.VFloat (NewFDiv p q))
  | _, _ => none

end DDP.Tyck

namespace DDP.SC

/-- The three-block diamond emitted for `a und b` (compiler
`VisitBinaryExpr`, `token.UND` case): `NewCondBr lhs trueBlock leaveBlock`;
`trueBlock` evaluates the right operand and branches to `leaveBlock`;
`NewPhi` in `leaveBlock` takes `rhs` from `trueBlock` and `lhs` from the
start block.  The result is the phi value paired with whether `trueBlock`
(the only block evaluating `b`) was executed. -/
def lowerUND (lhs rhs : Bool) : Bool × Bool :=
  if lhs then (rhs, true) else (lhs, false)

/-- The diamond emitted for `a oder b` (`token.ODER` case):
`NewCondBr lhs leaveBlock falseBlock`; `falseBlock` evaluates the right
operand; the phi takes `lhs` from the start block and `rhs` from
`falseBlock`. -/
def lowerODER (lhs rhs : Bool) : Bool × Bool :=
  if lhs then (lhs, false) else (rhs, true)

end DDP.SC

namespace DDP.Scan

/-- One already-scanned source element: an ordinary token (abstracted to a
number) or a `Binde "<path>" ein.` directive with its resolved canonical
absolute path. -/
inductive SrcItem where
  | tok (t : Nat)
  | incl (path : String)
  deriving DecidableEq, Repr

/-- The file system: canonical absolute path → file contents. -/
abbrev FileSys := List (String × List SrcItem)

/-- File lookup; `none` models `scanner.New` failing to read the file. -/
def lookupFS (fs : FileSys) (p : String) : Option (List SrcItem) :=
  (fs.find? fun e => e.1 = p).map (·.2)

/-- The scanner's include mechanism (`Scanner.NextToken` lines 113–122 and
the `token.BINDE` branch of `Scanner.identifier` lines 294–328), phrased
over the remaining items of the current file and the `includedFiles` set
(kept as a list):

* a token is emitted and scanning continues;
* an include whose path is already in the set is skipped;
* an include whose file cannot be opened leaves the set unchanged
  (`scanner.New` fails, `s.include` stays nil);
* otherwise an inner scanner is created whose set is the outer set plus the
  included path (`New` inserts the canonical path, then the outer set is
  copied in); its tokens are delivered inline, and on its EOF its final set
  replaces the outer scanner's set before the outer file continues.

`fuel` bounds the include nesting depth; the third result component lists
the files actually opened (tokenised), in order. -/
def scanItems (fs : FileSys) (fuel : Nat) (items : List SrcItem)
    (included : List String) : List Nat × List String × List String :=
  match fuel, items with
  | _, [] => ([], included, [])
  | fuel, .tok t :: rest =>
    let r := scanItems fs fuel rest included
    (t :: r.1, r.2.1, r.2.2)
  | 0, .incl _ :: rest => scanItems fs 0 rest included
  | fuel + 1, .incl q :: rest =>
    if q ∈ included then scanItems fs (fuel + 1) rest included
    else
      match lookupFS fs q with
      | none => scanItems fs (fuel + 1) rest included
      | some inner =>
        let r := scanItems fs fuel inner (q :: included)
        let r2 := scanItems fs (fuel + 1) rest r.2.1
        (r.1 ++ r2.1, r2.2.1, q :: (r.2.2 ++ r2.2.2))
termination_by (fuel, items)

/-- Scanning a translation unit from a file: `scanner.New` with a file path
canonicalises it and seeds `includedFiles` with it, then `ScanAll` drains
`NextToken`. -/
def scanRoot (fs : FileSys) (fuel : Nat) (p : String) :
    List Nat × List String × List String :=
  match lookupFS fs p with
  | none => ([], [p], [])
  | some items => scanItems fs fuel items [p]

end DDP.Scan

namespace DDP.Refc

theorem ffsllAux_lt : ∀ n : Nat, ∀ u : Nat, u < 2 ^ n → u ≠ 2 ^ n - 1 → ffsllAux n u < n := by
  intro n
  induction n with
  | zero =>
    intro u h1 h2
    norm_num at h1
    simp [h1] at h2
  | succ n ih =>
    intro u h1 h2
    unfold ffsllAux
    split
    · omega
    · rename_i hodd
      have hp : (0 : Nat) < 2 ^ n := pow_pos (by norm_num) n
      have hmod : u % 2 = 1 := by omega
      have hdm := Nat.div_add_mod u 2
      have hpow : 2 ^ (n + 1) = 2 * 2 ^ n := by ring
      have hu2 : u / 2 < 2 ^ n := by omega
      have hne : u / 2 ≠ 2 ^ n - 1 := by omega
      have := ih (u / 2) hu2 hne
      omega

theorem lowestZeroBit_lt {u : Nat} (h1 : u < 2 ^ 64) (h2 : u ≠ ALL_USED) :
    lowestZeroBit u < 64 :=
  ffsllAux_lt 64 u h1 h2

theorem testBit_set_self (u i : Nat) : (u ||| 2 ^ i).testBit i = true := by
  simp [Nat.testBit_lor, Nat.testBit_two_pow_self]

theorem testBit_mask_clear {v i : Nat} (h : i < 64) :
    (v &&& (ALL_USED ^^^ (1 <<< i))).testBit i = false := by
  have h1 : (1 <<< i) = 2 ^ i := Nat.one_shiftLeft i
  have h2 : ALL_USED = 2 ^ 64 - 1 := rfl
  rw [h1, h2, Nat.testBit_land, Nat.testBit_xor, Nat.testBit_two_pow_sub_one,
    Nat.testBit_two_pow_self]
  simp [h]

theorem setUsed_used {blocks : List Block} {bid v : Nat} {b : Block}
    (hb : b ∈ setUsed blocks bid v) (hid : b.id = bid) : b.used = v := by
  unfold setUsed at hb
  obtain ⟨a, _, rfl⟩ := List.mem_map.mp hb
  by_cases h : a.id = bid
  · simp [h]
  · simp only [if_neg h] at hid ⊢
    exact absurd hid h

theorem setUsed_mem {blocks : List Block} {bid v : Nat} {b : Block}
    (hb : b ∈ blocks) (hid : b.id = bid) : (⟨bid, v⟩ : Block) ∈ setUsed blocks bid v := by
  unfold setUsed
  have hm := List.mem_map_of_mem (fun b : Block => if b.id = bid then (⟨b.id, v⟩ : Block) else b) hb
  simpa [hid] using hm

theorem next_block_with_capa_spec (st : PoolState) (h : UsedBounded st) :
    (next_block_with_capa st).1 ∈ (next_block_with_capa st).2.blocks
    ∧ (next_block_with_capa st).1.used < 2 ^ 64
    ∧ (next_block_with_capa st).1.used ≠ ALL_USED := by
  unfold next_block_with_capa
  cases hf : st.blocks.reverse.find? (fun b => b.used ≠ ALL_USED) with
  | some b =>
    have hmem : b ∈ st.blocks := List.mem_reverse.mp (List.mem_of_find?_eq_some hf)
    have hne : b.used ≠ ALL_USED := by
      have hs := List.find?_some hf
      simpa using hs
    exact ⟨hmem, h b hmem, hne⟩
  | none =>
    unfold newRefcBlock
    refine ⟨?_, ?_, ?_⟩
    · show (⟨st.nextId, 0⟩ : Block) ∈ st.blocks ++ [⟨st.nextId, 0⟩]
      simp
    · show (0 : Nat) < 2 ^ 64
      norm_num
    · show (0 : Nat) ≠ ALL_USED
      decide

end DDP.Refc

namespace DDP.Refc

theorem alloc_components (st : PoolState) :
    ddp_allocate_refcount st =
      (((next_block_with_capa st).1.id, lowestZeroBit (next_block_with_capa st).1.used),
        ⟨setUsed (next_block_with_capa st).2.blocks (next_block_with_capa st).1.id
          ((next_block_with_capa st).1.used ||| 2 ^ lowestZeroBit (next_block_with_capa st).1.used),
          (next_block_with_capa st).2.nextId⟩) := rfl

/-- C1: every pointer handed out by `ddp_allocate_refcount` is a slot of a
live block with index below 64, and that slot's bit is set in the block's
bitmap afterwards; `ddp_free_refcount` on that pointer succeeds, after it
the slot's bit is clear in any live block at that address, and if the
clear empties the block's bitmap, the block is unlinked from the block
list. -/
theorem refcount_pool_bitmap_consistency (st : PoolState) (p : RefcPtr) (st' : PoolState)
    (hb : UsedBounded st) (halloc : ddp_allocate_refcount st = (p, st')) :
    p.2 < 64
    ∧ (∃ b ∈ st'.blocks, b.id = p.1 ∧ b.used.testBit p.2 = true)
    ∧ ∃ st'', ddp_free_refcount st' p = some st''
        ∧ (∀ b ∈ st''.blocks, b.id = p.1 → b.used.testBit p.2 = false)
        ∧ ((∃ b ∈ st'.blocks, b.id = p.1 ∧ b.used &&& (ALL_USED ^^^ (1 <<< p.2)) = 0) →
            ∀ b'' ∈ st''.blocks, b''.id ≠ p.1) := by
  obtain ⟨hmem, hlt, hne⟩ := next_block_with_capa_spec st hb
  rw [alloc_components st] at halloc
  obtain ⟨hp, hst'⟩ := Prod.mk.injEq .. ▸ halloc
  subst hp hst'
  set nb := (next_block_with_capa st).1 with hnb
  set stN := (next_block_with_capa st).2 with hstN
  set i := lowestZeroBit nb.used with hidef
  set u' := nb.used ||| 2 ^ i with hu'
  set blocks' := setUsed stN.blocks nb.id u' with hblocks'
  have hi64 : i < 64 := lowestZeroBit_lt hlt hne
  refine ⟨hi64, ?_, ?_⟩
  · exact ⟨⟨nb.id, u'⟩, setUsed_mem hmem rfl, rfl, testBit_set_self _ _⟩
  · have hsome : ∃ x ∈ blocks'.reverse, refc_in_block (nb.id, i) x = true := by
      refine ⟨⟨nb.id, u'⟩, List.mem_reverse.mpr (setUsed_mem hmem rfl), ?_⟩
      simp only [refc_in_block, Bool.and_eq_true, decide_eq_true_eq]
      refine ⟨by trivial, by omega⟩
    obtain ⟨bf, hbf⟩ := Option.isSome_iff_exists.mp (List.find?_isSome.mpr hsome)
    have hbfP : nb.id = bf.id ∧ i ≤ 63 := by
      have hs := List.find?_some hbf
      simpa [refc_in_block] using hs
    have hbfmem : bf ∈ blocks' := List.mem_reverse.mp (List.mem_of_find?_eq_some hbf)
    have hbfused : bf.used = u' := setUsed_used hbfmem hbfP.1.symm
    refine ⟨free_refc ⟨blocks', stN.nextId⟩ bf (nb.id, i), ?_, ?_, ?_⟩
    · simp only [ddp_free_refcount, get_block_of_refc, hbf]
    · intro b hbm hid
      unfold free_refc at hbm
      simp only [hbfused] at hbm
      by_cases hz : u' &&& (ALL_USED ^^^ (1 <<< i)) = 0
      · rw [if_pos hz] at hbm
        have hfil := List.mem_filter.mp hbm
        have hne' : b.id ≠ bf.id := by simpa using hfil.2
        exact absurd (hid.trans hbfP.1) hne'
      · rw [if_neg hz] at hbm
        have hidbf : b.id = bf.id := hid.trans hbfP.1
        have hbu := setUsed_used hbm hidbf
        rw [hbu]
        exact testBit_mask_clear hi64
    · rintro ⟨bq, hbqmem, hbqid, hbqz⟩ b'' hb'' hbid''
      have hbqused := setUsed_used hbqmem hbqid
      rw [hbqused] at hbqz
      unfold free_refc at hb''
      simp only [hbfused] at hb''
      rw [if_pos hbqz] at hb''
      have hfil := List.mem_filter.mp hb''
      have hne'' : b''.id ≠ bf.id := by simpa using hfil.2
      exact hne'' (hbid''.trans hbfP.1)

end DDP.Refc

namespace DDP.Refc

/-- Witness for C1 at the empty pool: the first allocation returns slot 0
of a fresh block and freeing it empties and unlinks the block. -/
theorem refcount_pool_bitmap_consistency_witness :
    UsedBounded ⟨[], 0⟩
    ∧ ddp_allocate_refcount ⟨[], 0⟩ = ((0, 0), ⟨[⟨0, 1⟩], 1⟩)
    ∧ (((0, 0) : RefcPtr).2 < 64
      ∧ (∃ b ∈ (⟨[⟨0, 1⟩], 1⟩ : PoolState).blocks, b.id = ((0, 0) : RefcPtr).1
          ∧ b.used.testBit ((0, 0) : RefcPtr).2 = true)
      ∧ ∃ st'', ddp_free_refcount ⟨[⟨0, 1⟩], 1⟩ (0, 0) = some st''
          ∧ (∀ b ∈ st''.blocks, b.id = ((0, 0) : RefcPtr).1 →
              b.used.testBit ((0, 0) : RefcPtr).2 = false)
          ∧ ((∃ b ∈ (⟨[⟨0, 1⟩], 1⟩ : PoolState).blocks, b.id = ((0, 0) : RefcPtr).1
              ∧ b.used &&& (ALL_USED ^^^ (1 <<< ((0, 0) : RefcPtr).2)) = 0) →
              ∀ b'' ∈ st''.blocks, b''.id ≠ ((0, 0) : RefcPtr).1)) :=
  ⟨by decide, by decide,
    refcount_pool_bitmap_consistency ⟨[], 0⟩ (0, 0) ⟨[⟨0, 1⟩], 1⟩ (by decide) (by decide)⟩

/-- C9 as stated is false: the pointer to slot 1 of a live block whose
bitmap is `1` (only slot 0 allocated) is not an allocated slot of any
block, yet `ddp_free_refcount` finds the block by its address range,
clears the already-clear bit and returns without a runtime error. -/
theorem free_unallocated_slot_not_detected :
    ¬ slotAllocated ⟨[⟨0, 1⟩], 1⟩ (0, 1)
    ∧ ddp_free_refcount ⟨[⟨0, 1⟩], 1⟩ (0, 1) = some ⟨[⟨0, 1⟩], 1⟩ := by
  constructor
  · decide
  · decide

/-- C9 amended: a pointer that lies within the `refcounts` array of no
live block at all makes `ddp_free_refcount` raise `ddp_runtime_error`
(modelled as `none`), leaving every bitmap unchanged. -/
theorem free_foreign_pointer_errors (st : PoolState) (p : RefcPtr)
    (h : ∀ b ∈ st.blocks, refc_in_block p b = false) :
    ddp_free_refcount st p = none := by
  have hn : st.blocks.reverse.find? (refc_in_block p) = none := by
    rw [List.find?_eq_none]
    intro b hbm
    simp [h b (List.mem_reverse.mp hbm)]
  simp [ddp_free_refcount, get_block_of_refc, hn]

/-- Witness for the amended C9: freeing a pointer with a block address
that no live block has raises the runtime error. -/
theorem free_foreign_pointer_errors_witness :
    (∀ b ∈ (⟨[⟨0, 1⟩], 1⟩ : PoolState).blocks, refc_in_block (5, 0) b = false)
    ∧ ddp_free_refcount ⟨[⟨0, 1⟩], 1⟩ (5, 0) = none :=
  ⟨by decide, free_foreign_pointer_errors ⟨[⟨0, 1⟩], 1⟩ (5, 0) (by decide)⟩

end DDP.Refc

namespace DDP.IRIndex

theorem wrap64_cases (x : Int) (h1 : -(2 ^ 63) - 1 ≤ x) (h2 : x < 2 ^ 63) :
    wrap64 x = x ∨ (wrap64 x = 2 ^ 63 - 1 ∧ x = -(2 ^ 63) - 1) := by
  unfold wrap64
  omega

/-- C2: the IR emitted for 1-based list indexing loads element `i − 1` of
the backing array exactly when `0 ≤ i − 1 < len`; otherwise control
reaches the error block, which calls `out_of_bounds` with the original
index `i` and the length `len` and never returns. -/
theorem list_indexing_bounds_checked (arr : List Int) (i : Int)
    (h1 : -(2 ^ 63) ≤ i) (h2 : i < 2 ^ 63) (h3 : (arr.length : Int) < 2 ^ 63) :
    ((0 ≤ i - 1 ∧ i - 1 < (arr.length : Int)) →
      lowerListIndexLoad arr i = .ok (arr.getD (i - 1).toNat 0))
    ∧ (¬(0 ≤ i - 1 ∧ i - 1 < (arr.length : Int)) →
      lowerListIndexLoad arr i = .error (i, (arr.length : Int))) := by
  unfold lowerListIndexLoad
  rcases wrap64_cases (i - 1) (by omega) (by omega) with hw | ⟨hw, hx⟩
  · rw [hw]
    constructor
    · intro hin
      rw [if_pos ⟨hin.2, hin.1⟩]
    · intro hout
      rw [if_neg (fun hc => hout ⟨hc.2, hc.1⟩)]
  · rw [hw]
    constructor
    · intro hin
      omega
    · intro _
      rw [if_neg (fun hc => by omega)]

/-- Witness for C2, the spec's end-to-end scenario: indexing element 5 of
a three-element list traps naming index 5 and length 3. -/
theorem list_indexing_bounds_checked_witness :
    (-(2 ^ 63) : Int) ≤ 5 ∧ (5 : Int) < 2 ^ 63
    ∧ (([10, 20, 30] : List Int).length : Int) < 2 ^ 63
    ∧ ¬((0 : Int) ≤ 5 - 1 ∧ (5 : Int) - 1 < (([10, 20, 30] : List Int).length : Int))
    ∧ lowerListIndexLoad [10, 20, 30] 5 = .error (5, (([10, 20, 30] : List Int).length : Int)) :=
  ⟨by decide, by decide, by decide, by decide,
    (list_indexing_bounds_checked [10, 20, 30] 5 (by decide) (by decide) (by decide)).2 (by decide)⟩

end DDP.IRIndex

namespace DDP.Bytes

/-- C3 fails on the code: because both `memcpy` source pointers are taken
from `a`, concatenating the one-byte collections `[5]` and `[9]` yields
`[5, 5]` where the spec's concatenation yields `[5, 9]`. -/
theorem bytesammlung_verkettet_copies_a_twice :
    ByteSammlung_Verkettet ⟨[5, 0, 0, 0, 0, 0, 0, 0], 1⟩ ⟨[9, 0, 0, 0, 0, 0, 0, 0], 1⟩
      = ⟨[5, 5, 0, 0, 0, 0, 0, 0], 2⟩
    ∧ ByteSammlung_Verkettet_spec ⟨[5, 0, 0, 0, 0, 0, 0, 0], 1⟩ ⟨[9, 0, 0, 0, 0, 0, 0, 0], 1⟩
      = ⟨[5, 9, 0, 0, 0, 0, 0, 0], 2⟩
    ∧ ByteSammlung_Verkettet ⟨[5, 0, 0, 0, 0, 0, 0, 0], 1⟩ ⟨[9, 0, 0, 0, 0, 0, 0, 0], 1⟩
      ≠ ByteSammlung_Verkettet_spec ⟨[5, 0, 0, 0, 0, 0, 0, 0], 1⟩ ⟨[9, 0, 0, 0, 0, 0, 0, 0], 1⟩ :=
  ⟨by decide, by decide, by decide⟩

end DDP.Bytes

namespace DDP.Str

/-- C4 fails on the code: `inbuilt_string_char_verkettet` never stores the
computed `new_cap` into `str->cap`, so appending `'b'` (0x62) to the
well-formed text `"a"` leaves `cap = 2` while the buffer became
`"ab\x00"`; the byte at offset `cap − 1` is then `0x62`, not `0x00`. -/
theorem string_char_verkettet_drops_cap_update :
    nullTerminated ⟨[97, 0], 2⟩
    ∧ inbuilt_string_char_verkettet ⟨[97, 0], 2⟩ 98 = ⟨[97, 98, 0], 2⟩
    ∧ ¬ nullTerminated (inbuilt_string_char_verkettet ⟨[97, 0], 2⟩ 98) :=
  ⟨by decide, by decide, by decide⟩

/-- C5 fails on the code: slicing the one-character text `"ä"`
(bytes `C3 A4 00`) from 1 to its character length 1 copies only
`i2 − i1 + 1` bytes, i.e. just the first byte of the final character,
producing `C3 00` instead of the original bytes. -/
theorem slice_identity_fails_on_multibyte :
    nullTerminated ⟨[195, 164, 0], 3⟩
    ∧ utf8_strlen [195, 164, 0] = 1
    ∧ inbuilt_string_slice ⟨[195, 164, 0], 3⟩ 1 1 = .ok ⟨[195, 0], 2⟩
    ∧ (⟨[195, 0], 2⟩ : DDPString) ≠ ⟨[195, 164, 0], 3⟩ :=
  ⟨by decide, by decide, rfl, by decide⟩

/-- C10: slicing returns an empty text unchanged, clamps both indices into
`[1, utf8_strlen]`, errors exactly when the clamped second index is below
the clamped first one (the error names the clamped indices), and never
errors merely because an index lies outside the text's range. -/
theorem slice_clamps_instead_of_trapping (s : DDPString) (i1 i2 : Int) :
    (s.cap ≤ 1 → inbuilt_string_slice s i1 i2 = .ok s)
    ∧ (1 < s.cap →
        ((inbuilt_string_slice s i1 i2 =
            .error (clamp i1 1 (utf8_strlen s.bytes), clamp i2 1 (utf8_strlen s.bytes))) ↔
          clamp i2 1 (utf8_strlen s.bytes) < clamp i1 1 (utf8_strlen s.bytes)))
    ∧ (1 < s.cap → i1 ≤ i2 → ∃ r, inbuilt_string_slice s i1 i2 = .ok r) := by
  refine ⟨?_, ?_, ?_⟩
  · intro hcap
    simp only [inbuilt_string_slice]
    rw [if_pos hcap]
  · intro hcap
    simp only [inbuilt_string_slice]
    rw [if_neg (by omega)]
    by_cases herr : clamp i2 1 (utf8_strlen s.bytes) < clamp i1 1 (utf8_strlen s.bytes)
    · rw [if_pos herr]
      simp [herr]
    · rw [if_neg herr]
      simp [herr]
  · intro hcap hle
    simp only [inbuilt_string_slice]
    rw [if_neg (by omega)]
    have hmono : clamp i1 1 (utf8_strlen s.bytes) ≤ clamp i2 1 (utf8_strlen s.bytes) := by
      simp only [clamp]
      split_ifs <;> omega
    rw [if_neg (by omega)]
    exact ⟨_, rfl⟩

/-- Witness for C10 on the text `"abc"`: both indices 5 and 7 lie outside
the range, yet after clamping no error is raised. -/
theorem slice_clamps_instead_of_trapping_witness :
    1 < (⟨[97, 98, 99, 0], 4⟩ : DDPString).cap ∧ (5 : Int) ≤ 7
    ∧ ∃ r, inbuilt_string_slice ⟨[97, 98, 99, 0], 4⟩ 5 7 = .ok r :=
  ⟨by decide, by decide,
    (slice_clamps_instead_of_trapping ⟨[97, 98, 99, 0], 4⟩ 5 7).2.2 (by decide) (by decide)⟩

end DDP.Str

namespace DDP.Tyck

/-- C6: the type checker gives every well-typed `durch` division the
result type `Kommazahl`, including the `Zahl × Zahl` case (with no
diagnostic), and the emitter converts integer operands with `SIToFP`
before emitting a single float division, so `3 durch 2` evaluates to
`1.5`. -/
theorem division_always_yields_kommazahl :
    (∀ lhs rhs : DDPType, (checkDURCH lhs rhs).2 = DDPFloatType)
    ∧ checkDURCH DDPIntType DDPIntType = (false, DDPFloatType)
    ∧ (∀ a b : Int, compileDURCH (.VInt a) (.VInt b)
        = some (.VFloat (NewFDiv (NewSIToFP a) (NewSIToFP b))))
    ∧ compileDURCH (.VInt 3) (.VInt 2) = some (.VFloat (3 / 2))
    ∧ (3 / 2 : ℚ) = 1.5 :=
  ⟨fun _ _ => rfl, by decide, fun _ _ => rfl,
    by simp only [compileDURCH, NewFDiv, NewSIToFP]; norm_num, by norm_num⟩

end DDP.Tyck

namespace DDP.SC

/-- C7: in the lowered diamond the right operand's block runs exactly when
the left operand is `true` (for `und`) resp. `false` (for `oder`), and the
phi result equals the boolean conjunction resp. disjunction in all
cases. -/
theorem short_circuit_und_oder (a b : Bool) :
    (lowerUND a b).1 = (a && b) ∧ ((lowerUND a b).2 = true ↔ a = true)
    ∧ (lowerODER a b).1 = (a || b) ∧ ((lowerODER a b).2 = true ↔ a = false) := by
  cases a <;> cases b <;> simp [lowerUND, lowerODER]

end DDP.SC

namespace DDP.Scan

theorem scanItems_spec (fs : FileSys) (fuel : Nat) (items : List SrcItem)
    (included : List String) :
    (scanItems fs fuel items included).2.2.Nodup
    ∧ (∀ q ∈ (scanItems fs fuel items included).2.2, q ∉ included)
    ∧ (∀ x, x ∈ (scanItems fs fuel items included).2.1 ↔
        x ∈ (scanItems fs fuel items included).2.2 ∨ x ∈ included) := by
  induction fuel, items, included using scanItems.induct fs with
  | case1 fuel included =>
    simp [scanItems]
  | case2 included fuel t rest ih =>
    simpa [scanItems] using ih
  | case3 included path rest ih =>
    simpa [scanItems] using ih
  | case4 included fuel q rest hmem ih =>
    simpa [scanItems, hmem] using ih
  | case5 included fuel q rest hmem hlk ih =>
    simpa [scanItems, hmem, hlk] using ih
  | case6 included fuel q rest hmem inner hlk r ih1 ih2 =>
    obtain ⟨n1, o1, s1⟩ := ih1
    obtain ⟨n2, o2, s2⟩ := ih2
    have hqS1 : q ∈ (scanItems fs fuel inner (q :: included)).2.1 :=
      (s1 q).mpr (Or.inr (by simp))
    have hsubS1 : ∀ x ∈ included, x ∈ (scanItems fs fuel inner (q :: included)).2.1 :=
      fun x hx => (s1 x).mpr (Or.inr (by simp [hx]))
    have hgoal : scanItems fs (fuel + 1) (SrcItem.incl q :: rest) included =
        ((scanItems fs fuel inner (q :: included)).1 ++
          (scanItems fs (fuel + 1) rest (scanItems fs fuel inner (q :: included)).2.1).1,
          (scanItems fs (fuel + 1) rest (scanItems fs fuel inner (q :: included)).2.1).2.1,
          q :: ((scanItems fs fuel inner (q :: included)).2.2 ++
            (scanItems fs (fuel + 1) rest (scanItems fs fuel inner (q :: included)).2.1).2.2)) := by
      rw [scanItems]
      simp [hmem, hlk]
    rw [hgoal]
    refine ⟨?_, ?_, ?_⟩
    · rw [List.nodup_cons]
      constructor
      · intro hc
        rcases List.mem_append.mp hc with hc1 | hc2
        · exact o1 q hc1 (by simp)
        · exact o2 q hc2 hqS1
      · refine List.Nodup.append n1 n2 ?_
        intro x hx1 hx2
        exact o2 x hx2 ((s1 x).mpr (Or.inl hx1))
    · intro z hz
      rcases List.mem_cons.mp hz with rfl | hz'
      · exact hmem
      · rcases List.mem_append.mp hz' with hz1 | hz2
        · intro hc
          exact o1 z hz1 (by simp [hc])
        · intro hc
          exact o2 z hz2 (hsubS1 z hc)
    · intro x
      rw [s2 x, s1 x]
      simp only [List.mem_cons, List.mem_append]
      tauto

/-- C8: scanning a translation unit tokenises every file at most once —
the root file is opened once, never re-opened by an include, and each file
opened through (possibly nested) includes appears exactly once in the list
of opened files; the final included-files set is exactly the root plus the
opened files. -/
theorem no_double_inclusion (fs : FileSys) (fuel : Nat) (p : String) :
    (p :: (scanRoot fs fuel p).2.2).Nodup
    ∧ (∀ x, x ∈ (scanRoot fs fuel p).2.1 ↔ x ∈ (scanRoot fs fuel p).2.2 ∨ x = p) := by
  unfold scanRoot
  cases hl : lookupFS fs p with
  | none => simp
  | some items =>
    obtain ⟨h1, h2, h3⟩ := scanItems_spec fs fuel items [p]
    refine ⟨?_, ?_⟩
    · rw [List.nodup_cons]
      exact ⟨fun hc => (h2 p hc) (by simp), h1⟩
    · intro x
      rw [h3 x]
      simp

end DDP.Scan
